import Mathlib

/-!
Verification of `config/config.go` (package `config` of hydra)

A shallow embedding of the configuration aggregate and of its accessors.

* Go strings are Lean `String`s, `[]byte` is a list of byte values, Go `int`
  is `Int` (no arithmetic is performed on the port, only a test against zero
  and decimal printing).
* A pointer field that may be `nil` is an `Option`.
* A method with a pointer receiver that assigns to a field returns the updated
  `Config` next to its result.
* A call that terminates the process (`pkg.Must` on a non-nil error,
  `os.Exit`) ends in `Outcome.exited`.
* Library calls that reach outside the process (`url.Parse`, the token
  request, `os.Getenv`, `ioutil.WriteFile`) are parameters or explicit
  records of the environment.
-/

namespace config

/-! ## Data model -/

/-- The fields of Go's `url.URL` that the package reads or writes. -/
structure URL where
  Scheme : String
  Host : String
  Path : String
  RawQuery : String
  Fragment : String
deriving DecidableEq, Repr

/-- The value of `clientcredentials.Config` built by `OAuth2Client`. -/
structure ClientCredentials where
  ClientID : String
  ClientSecret : String
  TokenURL : String
  Scopes : List String
deriving DecidableEq, Repr

/-- An `*http.Client` obtained from `clientcredentials.Config.Client`: the
credentials it refreshes its token with, and the allocation it lives at
(pointer identity). -/
structure HttpClient where
  conf : ClientCredentials
  addr : Nat
deriving DecidableEq, Repr

/-- The struct `Config` (config.go, lines 20-40). -/
structure Config where
  BindPort : Int
  BindHost : String
  Issuer : String
  SystemSecret : List Nat
  ConsentURL : String
  ClusterURL : String
  ClientID : String
  ClientSecret : String
  cluster : Option URL
  oauth2Client : Option HttpClient
deriving DecidableEq, Repr

/-- How a call that may terminate the process ends: it returns a value and
leaves a state behind, or the process exits in the given state. -/
inductive Outcome (σ α : Type) where
  | returned (value : α) (state : σ)
  | exited (state : σ)
deriving DecidableEq, Repr

/-- Whether the call returned. -/
def Outcome.isReturned {σ α : Type} : Outcome σ α → Bool
  | .returned _ _ => true
  | .exited _ => false

/-- The value a call returned, if it did. -/
def Outcome.value? {σ α : Type} : Outcome σ α → Option α
  | .returned v _ => some v
  | .exited _ => none

/-- The state a call left behind. -/
def Outcome.state {σ α : Type} : Outcome σ α → σ
  | .returned _ s => s
  | .exited s => s

/-- Modelled from the spec: `pkg.Must(err, ...)` of package `pkg`, which is not
among the source files. The spec says of both of its call sites that the
failure "is fatal — it terminates the process with a diagnostic rather than
returning an error to the caller"; with a nil error the caller goes on. -/
def Must {σ α ε : Type} (err : Option ε) (state : σ) (k : Unit → Outcome σ α) : Outcome σ α :=
  match err with
  | some _ => .exited state
  | none => k ()

/-! ## Standard output -/

/-- A call of `fmt.Println` or `fmt.Printf` with its arguments. -/
inductive Print where
  | Println (s : String)
  | Printf (format : String) (arg : List Nat)
deriving DecidableEq, Repr

/-! ## `GetSystemSecret` (lines 83-92) -/

/-- `Config.GetSystemSecret`: the returned bytes, the receiver afterwards and
what was printed. The assignment of line 89 is commented out in the source and
so is absent here. -/
def GetSystemSecret (c : Config) : List Nat × Config × List Print :=
  if c.SystemSecret.length ≥ 8 then
    (c.SystemSecret, c, [])
  else
    (c.SystemSecret, c,
      [Print.Println "No global secret was set. Generating a random one...",
       Print.Printf "A global secret was generated:\n%s\n" c.SystemSecret])

/-! ## `fmt.Sprintf("%s:%d", ...)` -/

/-- The byte `'0' + d` that `fmt` writes for a decimal digit. -/
def digitByte (d : Nat) : Char := Char.ofNat (48 + d)

/-- The digit loop of `fmt.(*fmt).fmtInteger` in base 10:
`for u >= 10 { next := u / 10; buf[i] = '0' + u - next*10; u = next }`
followed by `buf[i] = '0' + u`. The first argument bounds the number of
iterations; `fmtInteger` passes a bound that is never reached. -/
def fmtDigits : Nat → Nat → List Char → List Char
  | 0, u, buf => digitByte u :: buf
  | fuel + 1, u, buf =>
    if u ≥ 10 then
      let next := u / 10
      fmtDigits fuel next (digitByte (u - next * 10) :: buf)
    else
      digitByte u :: buf

/-- The verb `%d` applied to an `int`: the magnitude in decimal, preceded by
`-` when the argument is negative. -/
def fmtInteger (a : Int) : String :=
  let u := a.natAbs
  let digits := fmtDigits u u []
  String.mk (if a < 0 then '-' :: digits else digits)

/-- The call `fmt.Sprintf("%s:%d", s, d)`. -/
def Sprintf_s_colon_d (s : String) (d : Int) : String :=
  s ++ ":" ++ fmtInteger d

/-! ## `GetAddress` and `GetIssuer` (lines 94-106) -/

/-- `Config.GetAddress`: the address and the receiver afterwards. -/
def GetAddress (c : Config) : String × Config :=
  let c1 := if c.BindPort = 0 then { c with BindPort := 4444 } else c
  (Sprintf_s_colon_d c1.BindHost c1.BindPort, c1)

/-- `Config.GetIssuer`: the issuer and the receiver afterwards. -/
def GetIssuer (c : Config) : String × Config :=
  let c1 := if c.Issuer = "" then { c with Issuer := "hydra" } else c
  (c1.Issuer, c1)

/-! ## `getUserHome` (lines 138-147) -/

/-- The process environment and the value of `runtime.GOOS`. -/
structure Host where
  GOOS : String
  environ : List (String × String)
deriving DecidableEq, Repr

/-- `os.Getenv`: the value of the variable, or the empty string when it is
not set. -/
def Getenv (h : Host) (key : String) : String :=
  match h.environ.find? (fun kv => kv.1 == key) with
  | some kv => kv.2
  | none => ""

/-- `getUserHome`. -/
def getUserHome (h : Host) : String :=
  if h.GOOS = "windows" then
    let home := Getenv h "HOMEDRIVE" ++ Getenv h "HOMEPATH"
    let home := if home = "" then Getenv h "USERPROFILE" else home
    home
  else
    Getenv h "HOME"

/-! ## `Resolve` (lines 51-63) -/

/-- The pair `(*url.URL, error)` that `url.Parse` returns: a nil pointer with
the error, or the parsed URL with a nil error. -/
def parseResult (r : Except String URL) : Option URL × Option String :=
  match r with
  | .ok u => (some u, none)
  | .error e => (none, some e)

/-- Lines 58-62 of `Config.Resolve`, reached with the cache filled. The
dereference of a nil `c.cluster` inside `pkg.JoinURL` cannot be reached: see
`Resolve_tail_cached`. -/
def ResolveTail (JoinURL : URL → List String → URL) (c : Config) (join : List String) :
    Outcome Config (Option URL) :=
  if join.length = 0 then
    .returned c.cluster c
  else
    .returned (c.cluster.map (fun u => JoinURL u join)) c

/-- `Config.Resolve`. `Parse` is `url.Parse` of the Go standard library and
`JoinURL` is `pkg.JoinURL`. The result is the returned pointer and the receiver
afterwards, or the state in which `pkg.Must` ended the process. -/
def Resolve (Parse : String → Except String URL) (JoinURL : URL → List String → URL)
    (c : Config) (join : List String) : Outcome Config (Option URL) :=
  match c.cluster with
  | none =>
    let r := parseResult (Parse c.ClusterURL)
    let c1 := { c with cluster := r.1 }
    Must r.2 c1 (fun _ => ResolveTail JoinURL c1 join)
  | some _ => ResolveTail JoinURL c join

/-! ## `pkg.JoinURL` -/

/-- A path without its trailing slashes. -/
def trimRightSlash (p : List Char) : List Char :=
  (p.reverse.dropWhile (fun ch => ch == '/')).reverse

/-- A path segment without its leading and trailing slashes. -/
def trimSlash (p : List Char) : List Char :=
  trimRightSlash (p.dropWhile (fun ch => ch == '/'))

/-- The components that are joined: the base path up to its trailing slashes,
then every segment that is not made of slashes only, without its leading and
trailing slashes. -/
def pathComponents (base : String) (segments : List String) : List (List Char) :=
  trimRightSlash base.data ::
    (segments.map (fun s => trimSlash s.data)).filter (fun s => !s.isEmpty)

/-- Modelled from the spec: the path computed by `pkg.JoinURL`, which is not
among the source files. The spec (4.1) has "the base path joined with the
segments using exactly one separating slash between each component (no double
slashes, no missing separators)". -/
def joinPath (base : String) (segments : List String) : String :=
  String.mk (List.intercalate ['/'] (pathComponents base segments))

/-- Modelled from the spec: `pkg.JoinURL`, which is not among the source
files: "a new URL whose path is the base path joined with the segments". -/
def JoinURL (u : URL) (args : List String) : URL :=
  { u with Path := joinPath u.Path args }

/-- Two adjacent slashes occur somewhere in the path. -/
def hasDoubleSlash : List Char → Bool
  | a :: b :: rest => (a == '/' && b == '/') || hasDoubleSlash (b :: rest)
  | _ => false

/-! ## `OAuth2Client` (lines 65-81) -/

/-- What `OAuth2Client` does outside the process: the client-credentials token
requests sent so far (oldest first) and the number of HTTP clients built. -/
structure Net where
  tokenRequests : List ClientCredentials
  clients : Nat
deriving DecidableEq, Repr

/-- The `clientcredentials.Config` literal of lines 70-75. -/
def oauthConfig (JoinURLStrings : String → List String → String) (c : Config) :
    ClientCredentials :=
  { ClientID := c.ClientID
    ClientSecret := c.ClientSecret
    TokenURL := JoinURLStrings c.ClusterURL ["/oauth2/token"]
    Scopes := ["core", "hydra"] }

/-- `Config.OAuth2Client`. `JoinURLStrings` is `pkg.JoinURLStrings`; `Token`
answers a token request, given the requests that came before it, with the
error of `clientcredentials.Config.Token` (`none` when the grant succeeds). -/
def OAuth2Client (JoinURLStrings : String → List String → String)
    (Token : List ClientCredentials → ClientCredentials → Option String)
    (c : Config) (w : Net) : Outcome (Config × Net) (Option HttpClient) :=
  match c.oauth2Client with
  | some k => .returned (some k) (c, w)
  | none =>
    let conf := oauthConfig JoinURLStrings c
    let err := Token w.tokenRequests conf
    let w1 := { w with tokenRequests := w.tokenRequests ++ [conf] }
    Must err (c, w1) (fun _ =>
      let k : HttpClient := { conf := conf, addr := w1.clients }
      let w2 := { w1 with clients := w1.clients + 1 }
      let c1 := { c with oauth2Client := some k }
      .returned c1.oauth2Client (c1, w2))

/-- The calls `OAuth2Client(); ...; OAuth2Client()`, `n` of them in sequence
on one receiver: the clients returned, in call order. -/
def OAuth2ClientTimes (JoinURLStrings : String → List String → String)
    (Token : List ClientCredentials → ClientCredentials → Option String) :
    Nat → Config → Net → Outcome (Config × Net) (List (Option HttpClient))
  | 0, c, w => .returned [] (c, w)
  | n + 1, c, w =>
    match OAuth2Client JoinURLStrings Token c w with
    | .exited s => .exited s
    | .returned k (c1, w1) =>
      match OAuth2ClientTimes JoinURLStrings Token n c1 w1 with
      | .exited s => .exited s
      | .returned ks s => .returned (k :: ks) s

/-! ## `Save` and `getConfigPath` (lines 112-136) -/

/-- A scalar of the serialized document. -/
inductive YamlValue where
  | int (v : Int)
  | str (v : String)
  | bytes (v : List Nat)
  | pointer (isNil : Bool)
deriving DecidableEq, Repr

/-- A field of the struct `Config` as `yaml.Marshal` sees it by reflection:
its Go name, the `yaml` key of its struct tag (if it has one) and its value. -/
structure Field where
  name : String
  yamlTag : Option String
  value : Config → YamlValue

/-- The field declarations of lines 21-39, in order. -/
def Config.fields : List Field :=
  [ ⟨"BindPort", some "-", fun c => .int c.BindPort⟩,
    ⟨"BindHost", some "-", fun c => .str c.BindHost⟩,
    ⟨"Issuer", some "-", fun c => .str c.Issuer⟩,
    ⟨"SystemSecret", some "-", fun c => .bytes c.SystemSecret⟩,
    ⟨"ConsentURL", some "-", fun c => .str c.ConsentURL⟩,
    ⟨"ClusterURL", some "cluster_url", fun c => .str c.ClusterURL⟩,
    ⟨"ClientID", some "client_id", fun c => .str c.ClientID⟩,
    ⟨"ClientSecret", some "client_secret", fun c => .str c.ClientSecret⟩,
    ⟨"cluster", none, fun c => .pointer c.cluster.isNone⟩,
    ⟨"oauth2Client", none, fun c => .pointer c.oauth2Client.isNone⟩ ]

/-- Go exports a field when its name starts with an upper-case letter. -/
def Field.exported (f : Field) : Bool :=
  match f.name.data with
  | ch :: _ => ch.isUpper
  | [] => false

/-- The key `yaml.v2` gives a field, `none` when it leaves the field out:
unexported fields and fields tagged `-` are skipped, a tagged field has its
tag as key, an untagged one its name in lower case. -/
def Field.key (f : Field) : Option String :=
  if !f.exported then none
  else match f.yamlTag with
    | some "-" => none
    | some "" => some f.name.toLower
    | some tag => some tag
    | none => some f.name.toLower

/-- The mapping `yaml.Marshal(c)` encodes: keys with their values, in field
order. -/
def yamlMarshal (c : Config) : List (String × YamlValue) :=
  Config.fields.filterMap (fun f => (f.key).map (fun k => (k, f.value c)))

/-- The functions of `path/filepath` that `getConfigPath` calls. -/
structure Filepath where
  IsAbs : String → Bool
  Clean : String → String
  Abs : String → Except String String

/-- `getConfigPath`: the path, or the process exits after the diagnostic was
written to standard error (the state). -/
def getConfigPath (fp : Filepath) (h : Host) : Outcome (List String) String :=
  let path := getUserHome h ++ "/.hydra.yml"
  if fp.IsAbs path then
    .returned (fp.Clean path) []
  else
    match fp.Abs path with
    | .error err => .exited ["Could not fetch configuration path because " ++ err]
    | .ok p => .returned (fp.Clean p) []

/-- A call of `ioutil.WriteFile`. -/
structure FileWrite where
  filename : String
  data : List (String × YamlValue)
  perm : Nat
deriving DecidableEq, Repr

/-- `Config.Save`: the returned error (`none` for nil) and the call of
`ioutil.WriteFile` made, if any. `WriteFile` gives the error of that call.
`yaml.Marshal` does not fail on a struct of scalars, so its error branch is
never taken. -/
def Save (fp : Filepath) (WriteFile : FileWrite → Option String) (h : Host) (c : Config) :
    Outcome (List String × Option FileWrite) (Option String) :=
  let out := yamlMarshal c
  match getConfigPath fp h with
  | .exited stderr => .exited (stderr, none)
  | .returned path stderr =>
    let call : FileWrite := { filename := path, data := out, perm := 0o700 }
    match WriteFile call with
    | some err => .returned (some err) (stderr, some call)
    | none => .returned none (stderr, some call)

/-! ## Auxiliary definitions -/

/-- The URL `Resolve` hands back for a base URL and the given segments. -/
def resolved (JoinURL : URL → List String → URL) (u : URL) (join : List String) : URL :=
  if join.length = 0 then u else JoinURL u join

/-- A path segment written as a number of leading slashes, a core and a number
of trailing slashes. -/
structure Segment where
  lead : Nat
  core : List Char
  trail : Nat
deriving DecidableEq, Repr

/-- The string of a segment. -/
def Segment.text (s : Segment) : String :=
  String.mk (List.replicate s.lead '/' ++ s.core ++ List.replicate s.trail '/')

/-- The core neither starts nor ends with a slash (it may be empty). -/
def Segment.Clean (s : Segment) : Prop :=
  s.core.head? ≠ some '/' ∧ s.core.getLast? ≠ some '/'

/-- The path that starts with `base` and goes on with a slash and the core, for
every segment whose core is not empty. -/
def slashJoined (base : List Char) (segments : List Segment) : List Char :=
  ((segments.map (fun s => s.core)).filter (fun t => !t.isEmpty)).foldl
    (fun acc t => acc ++ '/' :: t) base

/-- An instance of `url.Parse` that accepts one cluster URL only. -/
def parseLocalhost (raw : String) : Except String URL :=
  if raw = "http://localhost:4444/api/" then .ok ⟨"http", "localhost:4444", "/api/", "", ""⟩
  else .error "parse error"

/-- An instance of `pkg.JoinURLStrings` by plain concatenation. -/
def concatURLStrings (host : String) (parts : List String) : String :=
  host ++ String.join parts

/-- A token endpoint that grants every request. -/
def grantAll (_ : List ClientCredentials) (_ : ClientCredentials) : Option String := none

/-- An instance of `path/filepath` for slash-separated paths: a path is
absolute when it starts with a slash, a relative one is resolved against the
root, and paths are taken to be clean already. -/
def slashFilepath : Filepath :=
  { IsAbs := fun p => p.data.head? == some '/'
    Clean := fun p => p
    Abs := fun p => .ok ("/" ++ p) }

/-- A file system on which every write succeeds. -/
def writeAlways (_ : FileWrite) : Option String := none

/-! ## Lemmas on decimal printing -/

theorem digitByte_eq_digitChar (d : Nat) (h : d < 10) : digitByte d = Nat.digitChar d := by
  interval_cases d <;> rfl

theorem fmtDigits_eq_toDigitsCore (fuel : Nat) :
    ∀ (u : Nat) (buf : List Char), u ≤ fuel →
      fmtDigits fuel u buf = Nat.toDigitsCore 10 (fuel + 1) u buf := by
  induction fuel with
  | zero =>
    intro u buf hu
    have h0 : u = 0 := by omega
    subst h0
    rfl
  | succ n ih =>
    intro u buf hu
    by_cases h10 : u ≥ 10
    · have hne : u / 10 ≠ 0 := by omega
      have hle : u / 10 ≤ n := by omega
      have hmod : u - u / 10 * 10 = u % 10 := by omega
      have hd : digitByte (u % 10) = Nat.digitChar (u % 10) :=
        digitByte_eq_digitChar _ (Nat.mod_lt _ (by decide))
      rw [fmtDigits, if_pos h10, Nat.toDigitsCore]
      simp only [hne, if_false, hmod, hd]
      exact ih _ _ hle
    · have hz : u / 10 = 0 := by omega
      have hmod : u % 10 = u := by omega
      have hd : digitByte u = Nat.digitChar u := digitByte_eq_digitChar _ (by omega)
      rw [fmtDigits, if_neg h10, Nat.toDigitsCore]
      simp only [hz, if_true, hmod, hd]

theorem fmtDigits_eq_toDigits (u : Nat) : fmtDigits u u [] = Nat.toDigits 10 u :=
  fmtDigits_eq_toDigitsCore u u [] (Nat.le_refl u)

theorem fmtInteger_eq_toString (a : Int) : fmtInteger a = toString a := by
  cases a with
  | ofNat m =>
    have hneg : ¬ ((Int.ofNat m) < 0) := by
      simp
    simp only [fmtInteger, hneg, if_false, Int.natAbs_ofNat, fmtDigits_eq_toDigits]
    rfl
  | negSucc m =>
    have hneg : (Int.negSucc m) < 0 := Int.negSucc_lt_zero m
    simp only [fmtInteger, hneg, if_true, Int.natAbs_negSucc, fmtDigits_eq_toDigits]
    rfl

theorem String.append_eq_empty_iff (a b : String) : a ++ b = "" ↔ a = "" ∧ b = "" := by
  constructor
  · intro h
    have hd : (a ++ b).data = [] := by rw [h]
    rw [String.data_append, List.append_eq_nil] at hd
    exact ⟨String.ext hd.1, String.ext hd.2⟩
  · rintro ⟨rfl, rfl⟩
    rfl

/-! ## Lemmas on `Resolve` and `OAuth2Client` -/

theorem Resolve_tail_cached (JoinURL : URL → List String → URL) (c : Config) (u : URL)
    (join : List String) (h : c.cluster = some u) :
    ResolveTail JoinURL c join = .returned (some (resolved JoinURL u join)) c := by
  unfold ResolveTail resolved
  rw [h]
  split <;> rfl

theorem Resolve_cached (Parse : String → Except String URL) (JoinURL : URL → List String → URL)
    (c : Config) (u : URL) (join : List String) (h : c.cluster = some u) :
    Resolve Parse JoinURL c join = .returned (some (resolved JoinURL u join)) c := by
  have ht := Resolve_tail_cached JoinURL c u join h
  unfold Resolve
  rw [h]
  simpa using ht

theorem Resolve_parsed (Parse : String → Except String URL) (JoinURL : URL → List String → URL)
    (c : Config) (u : URL) (join : List String) (hnil : c.cluster = none)
    (hparse : Parse c.ClusterURL = .ok u) :
    Resolve Parse JoinURL c join =
      .returned (some (resolved JoinURL u join)) { c with cluster := some u } := by
  unfold Resolve
  rw [hnil]
  simp only [hparse, parseResult, Must]
  exact Resolve_tail_cached JoinURL _ u join rfl

theorem Resolve_failed (Parse : String → Except String URL) (JoinURL : URL → List String → URL)
    (c : Config) (e : String) (join : List String) (hnil : c.cluster = none)
    (hparse : Parse c.ClusterURL = .error e) :
    Resolve Parse JoinURL c join = .exited c := by
  unfold Resolve
  rw [hnil]
  simp only [hparse, parseResult, Must]
  cases c
  simp_all

theorem OAuth2Client_cached (JoinURLStrings : String → List String → String)
    (Token : List ClientCredentials → ClientCredentials → Option String)
    (c : Config) (w : Net) (k : HttpClient) (h : c.oauth2Client = some k) :
    OAuth2Client JoinURLStrings Token c w = .returned (some k) (c, w) := by
  unfold OAuth2Client
  rw [h]

theorem OAuth2ClientTimes_cached (JoinURLStrings : String → List String → String)
    (Token : List ClientCredentials → ClientCredentials → Option String)
    (n : Nat) (c : Config) (w : Net) (k : HttpClient) (h : c.oauth2Client = some k) :
    OAuth2ClientTimes JoinURLStrings Token n c w =
      .returned (List.replicate n (some k)) (c, w) := by
  induction n with
  | zero => rfl
  | succ m ih =>
    simp only [OAuth2ClientTimes, OAuth2Client_cached JoinURLStrings Token c w k h, ih,
      List.replicate_succ]

theorem OAuth2Client_first (JoinURLStrings : String → List String → String)
    (Token : List ClientCredentials → ClientCredentials → Option String)
    (c : Config) (w : Net) (hnil : c.oauth2Client = none)
    (hgrant : Token w.tokenRequests (oauthConfig JoinURLStrings c) = none) :
    OAuth2Client JoinURLStrings Token c w =
      .returned (some ⟨oauthConfig JoinURLStrings c, w.clients⟩)
        ({ c with oauth2Client := some ⟨oauthConfig JoinURLStrings c, w.clients⟩ },
          ⟨w.tokenRequests ++ [oauthConfig JoinURLStrings c], w.clients + 1⟩) := by
  unfold OAuth2Client
  rw [hnil]
  simp only [hgrant, Must]

/-! ## Lemmas on joining paths -/

theorem hasDoubleSlash_eq_false_iff (p : List Char) :
    hasDoubleSlash p = false ↔ List.Chain' (fun a b => ¬ (a = '/' ∧ b = '/')) p := by
  induction p with
  | nil => simp [hasDoubleSlash]
  | cons a t ih =>
    cases t with
    | nil => simp [hasDoubleSlash]
    | cons b r =>
      rw [List.chain'_cons, ← ih]
      simp [hasDoubleSlash]

theorem trimRightSlash_getLast (p : List Char) : (trimRightSlash p).getLast? ≠ some '/' := by
  unfold trimRightSlash
  rw [List.getLast?_reverse]
  have h := List.head?_dropWhile_not (fun ch => ch == '/') p.reverse
  intro hc
  rw [hc] at h
  simp at h

theorem trimRightSlash_head (p : List Char) (h : p.head? ≠ some '/') :
    (trimRightSlash p).head? ≠ some '/' := by
  have hp : trimRightSlash p <+: p := List.rdropWhile_prefix (fun ch => ch == '/') p
  obtain ⟨t, ht⟩ := hp
  intro hc
  apply h
  rw [← ht, List.head?_append, hc]
  rfl

theorem trimSlash_head (p : List Char) : (trimSlash p).head? ≠ some '/' := by
  apply trimRightSlash_head
  have h := List.head?_dropWhile_not (fun ch => ch == '/') p
  intro hc
  rw [hc] at h
  simp at h

theorem intercalate_cons_cons (x y : List Char) (r : List (List Char)) :
    List.intercalate ['/'] (x :: y :: r) = x ++ '/' :: List.intercalate ['/'] (y :: r) := by
  simp [List.intercalate, List.intersperse]

theorem intercalate_head (y : List Char) (r : List (List Char)) (hy : y ≠ []) :
    (List.intercalate ['/'] (y :: r)).head? = y.head? := by
  cases r with
  | nil => simp [List.intercalate, List.intersperse]
  | cons z r =>
    rw [intercalate_cons_cons, List.head?_append]
    cases y with
    | nil => exact absurd rfl hy
    | cons a t => rfl

theorem intercalate_noDoubleSlash (comps : List (List Char)) :
    (∀ comp ∈ comps, hasDoubleSlash comp = false ∧ comp.getLast? ≠ some '/') →
    (∀ comp ∈ comps.tail, comp ≠ [] ∧ comp.head? ≠ some '/') →
    hasDoubleSlash (List.intercalate ['/'] comps) = false := by
  induction comps with
  | nil => intro _ _; rfl
  | cons x t ih =>
    intro hall htail
    cases t with
    | nil =>
      have := (hall x (List.mem_cons_self _ _)).1
      simpa [List.intercalate, List.intersperse] using this
    | cons y r =>
      have hx := hall x (List.mem_cons_self _ _)
      have hy : y ≠ [] ∧ y.head? ≠ some '/' := htail y (List.mem_cons_self _ _)
      have hrest := ih (fun comp hm => hall comp (List.mem_cons_of_mem _ hm))
        (fun comp hm => htail comp (List.mem_cons_of_mem _ hm))
      rw [intercalate_cons_cons, hasDoubleSlash_eq_false_iff]
      rw [hasDoubleSlash_eq_false_iff] at hrest
      refine List.Chain'.append ((hasDoubleSlash_eq_false_iff x).1 hx.1) ?_ ?_
      · rw [List.chain'_cons']
        refine ⟨?_, hrest⟩
        intro b hb
        rw [intercalate_head y r hy.1] at hb
        rintro ⟨-, rfl⟩
        exact hy.2 hb
      · intro a ha b _
        rintro ⟨rfl, -⟩
        exact hx.2 ha

theorem dropWhile_slash_of_head (p : List Char) (h : p.head? ≠ some '/') :
    p.dropWhile (fun ch => ch == '/') = p := by
  cases p with
  | nil => rfl
  | cons a t =>
    have ha : (a == '/') = false := by
      rw [beq_eq_false_iff_ne]
      exact fun hc => h (by rw [hc]; rfl)
    rw [List.dropWhile_cons, ha]
    rfl

theorem dropWhile_replicate_slash (m : Nat) (rest : List Char)
    (h : rest.head? ≠ some '/') :
    (List.replicate m '/' ++ rest).dropWhile (fun ch => ch == '/') = rest := by
  induction m with
  | zero => simpa using dropWhile_slash_of_head rest h
  | succ n ih =>
    rw [List.replicate_succ, List.cons_append, List.dropWhile_cons]
    simpa using ih

theorem trimRightSlash_append_replicate (x : List Char) (k : Nat)
    (h : x.getLast? ≠ some '/') : trimRightSlash (x ++ List.replicate k '/') = x := by
  unfold trimRightSlash
  rw [List.reverse_append, List.reverse_replicate,
    dropWhile_replicate_slash k x.reverse (by rwa [List.head?_reverse]), List.reverse_reverse]

theorem trimSlash_text (s : Segment) (h : s.Clean) : trimSlash s.text.data = s.core := by
  unfold trimSlash Segment.text
  cases hc : s.core with
  | nil =>
    have h1 : (List.replicate s.lead '/' ++ [] ++ List.replicate s.trail '/') =
        List.replicate (s.lead + s.trail) '/' ++ [] := by
      rw [List.append_nil, List.append_nil, List.replicate_add]
    simp only [h1]
    rw [dropWhile_replicate_slash _ [] (by simp)]
    rfl
  | cons a t =>
    have hh : ((a :: t) ++ List.replicate s.trail '/').head? ≠ some '/' := by
      have := h.1
      rw [hc] at this
      simpa using this
    have hl : (a :: t).getLast? ≠ some '/' := by
      have := h.2
      rwa [hc] at this
    simp only [List.append_assoc]
    rw [dropWhile_replicate_slash _ _ hh, trimRightSlash_append_replicate _ _ hl]

theorem pathComponents_text (base : String) (b : List Char) (k : Nat) (segments : List Segment)
    (hb : base.data = b ++ List.replicate k '/') (hbl : b.getLast? ≠ some '/')
    (hs : ∀ s ∈ segments, s.Clean) :
    pathComponents base (segments.map Segment.text) =
      b :: (segments.map (fun s => s.core)).filter (fun t => !t.isEmpty) := by
  unfold pathComponents
  rw [hb, trimRightSlash_append_replicate b k hbl]
  congr 2
  rw [List.map_map]
  apply List.map_congr_left
  intro s hm
  exact trimSlash_text s (hs s hm)

theorem intercalate_cons_foldl (comps : List (List Char)) :
    ∀ base : List Char, List.intercalate ['/'] (base :: comps) =
      comps.foldl (fun acc t => acc ++ '/' :: t) base := by
  induction comps with
  | nil =>
    intro base
    simp [List.intercalate, List.intersperse]
  | cons t r ih =>
    intro base
    rw [List.foldl_cons, ← ih (base ++ '/' :: t), intercalate_cons_cons]
    cases r with
    | nil => simp [List.intercalate, List.intersperse]
    | cons t2 r2 =>
      rw [intercalate_cons_cons, intercalate_cons_cons]
      simp

theorem joinPath_text (base : String) (b : List Char) (k : Nat) (segments : List Segment)
    (hb : base.data = b ++ List.replicate k '/') (hbl : b.getLast? ≠ some '/')
    (hs : ∀ s ∈ segments, s.Clean) :
    joinPath base (segments.map Segment.text) = String.mk (slashJoined b segments) := by
  unfold joinPath slashJoined
  rw [pathComponents_text base b k segments hb hbl hs, intercalate_cons_foldl]

theorem slashJoined_noDoubleSlash (b : List Char) (segments : List Segment)
    (hbl : b.getLast? ≠ some '/') (hs : ∀ s ∈ segments, s.Clean)
    (hb2 : hasDoubleSlash b = false) (hs2 : ∀ s ∈ segments, hasDoubleSlash s.core = false) :
    hasDoubleSlash (slashJoined b segments) = false := by
  unfold slashJoined
  rw [← intercalate_cons_foldl]
  apply intercalate_noDoubleSlash
  · intro comp hm
    rcases List.mem_cons.1 hm with rfl | hm
    · exact ⟨hb2, hbl⟩
    · obtain ⟨hm1, -⟩ := List.mem_filter.1 hm
      obtain ⟨s, hsm, rfl⟩ := List.mem_map.1 hm1
      exact ⟨hs2 s hsm, (hs s hsm).2⟩
  · intro comp hm
    simp only [List.tail_cons] at hm
    obtain ⟨hm1, hm2⟩ := List.mem_filter.1 hm
    obtain ⟨s, hsm, rfl⟩ := List.mem_map.1 hm1
    refine ⟨?_, (hs s hsm).1⟩
    intro hnil
    rw [hnil] at hm2
    simp at hm2

theorem trimRightSlash_append_trailing (p : List Char) :
    p = trimRightSlash p ++
      List.replicate (p.rtakeWhile (fun ch => ch == '/')).length '/' := by
  have hall : ∀ x ∈ p.rtakeWhile (fun ch => ch == '/'), x = '/' := by
    intro x hx
    simpa using List.mem_rtakeWhile_imp hx
  rw [← List.eq_replicate_of_mem hall]
  have h := List.takeWhile_append_dropWhile (fun ch => ch == '/') p.reverse
  have h2 := congrArg List.reverse h
  rw [List.reverse_append, List.reverse_reverse] at h2
  exact h2.symm

theorem exists_clean_segment (str : String) : ∃ s : Segment, s.Clean ∧ s.text = str := by
  have hall : ∀ x ∈ str.data.takeWhile (fun ch => ch == '/'), x = '/' := by
    intro x hx
    simpa using List.mem_takeWhile_imp hx
  refine ⟨⟨(str.data.takeWhile (fun ch => ch == '/')).length, trimSlash str.data,
    ((str.data.dropWhile (fun ch => ch == '/')).rtakeWhile (fun ch => ch == '/')).length⟩,
    ⟨trimSlash_head _, trimRightSlash_getLast _⟩, ?_⟩
  apply String.ext
  show List.replicate _ '/' ++ trimSlash str.data ++ List.replicate _ '/' = str.data
  rw [← List.eq_replicate_of_mem hall, List.append_assoc]
  have h1 := trimRightSlash_append_trailing (str.data.dropWhile (fun ch => ch == '/'))
  unfold trimSlash
  rw [← h1, List.takeWhile_append_dropWhile]

theorem exists_slash_decomposition (p : String) (join : List String) :
    ∃ (b : List Char) (k : Nat) (segments : List Segment),
      p.data = b ++ List.replicate k '/' ∧ b.getLast? ≠ some '/' ∧
      (∀ s ∈ segments, s.Clean) ∧ segments.map Segment.text = join := by
  have hseg : ∃ segments : List Segment,
      (∀ s ∈ segments, s.Clean) ∧ segments.map Segment.text = join := by
    induction join with
    | nil => exact ⟨[], by simp, rfl⟩
    | cons str rest ih =>
      obtain ⟨segs, hclean, hmap⟩ := ih
      obtain ⟨s, hsc, hst⟩ := exists_clean_segment str
      refine ⟨s :: segs, ?_, by rw [List.map_cons, hst, hmap]⟩
      intro x hx
      rcases List.mem_cons.1 hx with rfl | hx
      · exact hsc
      · exact hclean x hx
  obtain ⟨segs, hclean, hmap⟩ := hseg
  exact ⟨trimRightSlash p.data, _, segs, trimRightSlash_append_trailing p.data,
    trimRightSlash_getLast p.data, hclean, hmap⟩

/-! ## Theorems -/

/-- C1: on a `Config` whose `SystemSecret` has 4 bytes, `GetSystemSecret`
announces on standard output that a secret is being generated and that one was
generated, yet it returns the 4 stored bytes (fewer than 8) and the
`SystemSecret` field is the same afterwards: nothing is generated or stored. -/
theorem GetSystemSecret_short_secret_not_replaced :
    GetSystemSecret ⟨0, "", "", [1, 2, 3, 4], "", "", "", "", none, none⟩ =
      ([1, 2, 3, 4], ⟨0, "", "", [1, 2, 3, 4], "", "", "", "", none, none⟩,
        [Print.Println "No global secret was set. Generating a random one...",
         Print.Printf "A global secret was generated:\n%s\n" [1, 2, 3, 4]]) ∧
    (GetSystemSecret ⟨0, "", "", [1, 2, 3, 4], "", "", "", "", none, none⟩).1.length < 8 := by
  decide

/-- C2: for every `Config`, `GetSystemSecret` returns exactly the stored
`SystemSecret`, whatever its length (8 bytes or more, fewer than 8, empty), and
the `Config` afterwards equals the `Config` before in every field. -/
theorem GetSystemSecret_returns_stored (c : Config) :
    (GetSystemSecret c).1 = c.SystemSecret ∧ (GetSystemSecret c).2.1 = c := by
  unfold GetSystemSecret
  split <;> exact ⟨rfl, rfl⟩

/-- C3: for every `Config`, `GetAddress` returns the bind host, a colon and the
decimal form of the port, where a stored port of zero is replaced by 4444 and
any other port (a negative one too) is printed as stored; host `0.0.0.0` gives
`0.0.0.0:4444` with port 0 and `0.0.0.0:8080` with port 8080. -/
theorem GetAddress_eq (c : Config) :
    (GetAddress c).1 =
        c.BindHost ++ ":" ++ toString (if c.BindPort = 0 then (4444 : Int) else c.BindPort) ∧
      (GetAddress ⟨0, "0.0.0.0", "", [], "", "", "", "", none, none⟩).1 = "0.0.0.0:4444" ∧
      (GetAddress ⟨8080, "0.0.0.0", "", [], "", "", "", "", none, none⟩).1 = "0.0.0.0:8080" := by
  refine ⟨?_, by decide, by decide⟩
  unfold GetAddress Sprintf_s_colon_d
  simp only [fmtInteger_eq_toString]
  split <;> rfl

/-- C4: for every `Config`, `GetIssuer` returns `hydra` when the stored
`Issuer` is the empty string and the stored `Issuer` otherwise; the default
replaces the stored value exactly when the stored value is empty; issuer `foo`
gives `foo`. -/
theorem GetIssuer_eq (c : Config) :
    (GetIssuer c).1 = (if c.Issuer = "" then "hydra" else c.Issuer) ∧
      ((GetIssuer c).1 ≠ c.Issuer ↔ c.Issuer = "") ∧
      (GetIssuer ⟨0, "", "foo", [], "", "", "", "", none, none⟩).1 = "foo" := by
  refine ⟨?_, ?_, by decide⟩
  · unfold GetIssuer
    split <;> rfl
  · unfold GetIssuer
    by_cases h : c.Issuer = ""
    · simp [h]
    · simp [h]

/-- C10 as stated fails: on Windows with `HOMEDRIVE` set to `C:`, `HOMEPATH`
unset (empty) and `USERPROFILE` set, `getUserHome` returns `C:` and not the
user-profile variable. -/
theorem getUserHome_one_empty_no_fallback :
    Getenv ⟨"windows", [("HOMEDRIVE", "C:"), ("USERPROFILE", "C:/Users/me")]⟩ "HOMEPATH" = "" ∧
    getUserHome ⟨"windows", [("HOMEDRIVE", "C:"), ("USERPROFILE", "C:/Users/me")]⟩ = "C:" ∧
    getUserHome ⟨"windows", [("HOMEDRIVE", "C:"), ("USERPROFILE", "C:/Users/me")]⟩ ≠
      Getenv ⟨"windows", [("HOMEDRIVE", "C:"), ("USERPROFILE", "C:/Users/me")]⟩ "USERPROFILE" := by
  decide

/-- C10 amended: on Windows `getUserHome` returns `USERPROFILE` when `HOMEDRIVE`
and `HOMEPATH` are both empty, and `HOMEDRIVE` followed by `HOMEPATH` otherwise
(also when only one of the two is empty); on every other platform it returns
`HOME`. -/
theorem getUserHome_eq (h : Host) :
    getUserHome h =
      if h.GOOS = "windows" then
        (if Getenv h "HOMEDRIVE" = "" ∧ Getenv h "HOMEPATH" = "" then Getenv h "USERPROFILE"
         else Getenv h "HOMEDRIVE" ++ Getenv h "HOMEPATH")
      else Getenv h "HOME" := by
  unfold getUserHome
  by_cases hw : h.GOOS = "windows"
  · simp only [hw, if_true, String.append_eq_empty_iff]
  · simp only [hw, if_false]

/-- C5: on a `Config` with an empty cache whose `ClusterURL` parses to `u`, a
first `Resolve` returns the URL built from `u` (with zero segments `u` itself)
and leaves `u` in the cache. From then on, whatever string `ClusterURL` is set
to (parseable or not), `Resolve` returns for any segments the URL built from
`u`, in particular for the segments of the first call the very result of the
first call and for zero segments `u` itself, and leaves the cache at `u`. In
general a `Resolve` on a `Config` whose cache holds a URL returns the URL built
from the cached one and leaves the whole `Config`, cache included, as it was. -/
theorem Resolve_cache_sticky (Parse : String → Except String URL)
    (JoinURL : URL → List String → URL) (c : Config) (u : URL) (first : List String)
    (hnil : c.cluster = none) (hparse : Parse c.ClusterURL = .ok u) :
    Resolve Parse JoinURL c first =
        .returned (some (if first.length = 0 then u else JoinURL u first))
          { c with cluster := some u } ∧
      Resolve Parse JoinURL c [] = .returned (some u) { c with cluster := some u } ∧
      (∀ (raw : String) (join : List String),
        Resolve Parse JoinURL { c with cluster := some u, ClusterURL := raw } join =
          .returned (some (if join.length = 0 then u else JoinURL u join))
            { c with cluster := some u, ClusterURL := raw }) ∧
      (∀ (raw : String),
        (Resolve Parse JoinURL { c with cluster := some u, ClusterURL := raw } first).value? =
            (Resolve Parse JoinURL c first).value? ∧
          Resolve Parse JoinURL { c with cluster := some u, ClusterURL := raw } [] =
            .returned (some u) { c with cluster := some u, ClusterURL := raw }) ∧
      (∀ (c2 : Config) (v : URL) (join : List String), c2.cluster = some v →
        Resolve Parse JoinURL c2 join =
          .returned (some (if join.length = 0 then v else JoinURL v join)) c2) := by
  have hfirst := Resolve_parsed Parse JoinURL c u first hnil hparse
  have hzero := Resolve_parsed Parse JoinURL c u [] hnil hparse
  have hlater : ∀ (raw : String) (join : List String),
      Resolve Parse JoinURL { c with cluster := some u, ClusterURL := raw } join =
        .returned (some (if join.length = 0 then u else JoinURL u join))
          { c with cluster := some u, ClusterURL := raw } := fun raw join =>
    Resolve_cached Parse JoinURL { c with cluster := some u, ClusterURL := raw } u join rfl
  refine ⟨hfirst, hzero, hlater, ?_, ?_⟩
  · intro raw
    refine ⟨?_, hlater raw []⟩
    rw [hlater raw first, hfirst]
    rfl
  · intro c2 v join hv
    exact Resolve_cached Parse JoinURL c2 v join hv

/-- Instance of C5: the cluster URL `http://localhost:4444/api/` is resolved
with the segment `clients`, then `ClusterURL` is changed. -/
theorem Resolve_cache_sticky_witness :
    ((⟨0, "", "", [], "", "http://localhost:4444/api/", "", "", none, none⟩ : Config).cluster = none ∧
      parseLocalhost
        (⟨0, "", "", [], "", "http://localhost:4444/api/", "", "", none, none⟩ : Config).ClusterURL =
          .ok ⟨"http", "localhost:4444", "/api/", "", ""⟩) ∧
    (Resolve parseLocalhost JoinURL
        ⟨0, "", "", [], "", "http://localhost:4444/api/", "", "", none, none⟩ ["clients"] =
        .returned (some ⟨"http", "localhost:4444", "/api/clients", "", ""⟩)
          ⟨0, "", "", [], "", "http://localhost:4444/api/", "", "",
            some ⟨"http", "localhost:4444", "/api/", "", ""⟩, none⟩ ∧
      Resolve parseLocalhost JoinURL
        ⟨0, "", "", [], "", "http://localhost:4444/api/", "", "", none, none⟩ [] =
        .returned (some ⟨"http", "localhost:4444", "/api/", "", ""⟩)
          ⟨0, "", "", [], "", "http://localhost:4444/api/", "", "",
            some ⟨"http", "localhost:4444", "/api/", "", ""⟩, none⟩ ∧
      (∀ (raw : String) (join : List String),
        Resolve parseLocalhost JoinURL
            ⟨0, "", "", [], "", raw, "", "",
              some ⟨"http", "localhost:4444", "/api/", "", ""⟩, none⟩ join =
          .returned
            (some (if join.length = 0 then ⟨"http", "localhost:4444", "/api/", "", ""⟩
              else JoinURL ⟨"http", "localhost:4444", "/api/", "", ""⟩ join))
            ⟨0, "", "", [], "", raw, "", "",
              some ⟨"http", "localhost:4444", "/api/", "", ""⟩, none⟩) ∧
      (∀ (raw : String),
        (Resolve parseLocalhost JoinURL
            ⟨0, "", "", [], "", raw, "", "",
              some ⟨"http", "localhost:4444", "/api/", "", ""⟩, none⟩ ["clients"]).value? =
          (Resolve parseLocalhost JoinURL
            ⟨0, "", "", [], "", "http://localhost:4444/api/", "", "", none, none⟩
            ["clients"]).value? ∧
          Resolve parseLocalhost JoinURL
            ⟨0, "", "", [], "", raw, "", "",
              some ⟨"http", "localhost:4444", "/api/", "", ""⟩, none⟩ [] =
            .returned (some ⟨"http", "localhost:4444", "/api/", "", ""⟩)
              ⟨0, "", "", [], "", raw, "", "",
                some ⟨"http", "localhost:4444", "/api/", "", ""⟩, none⟩) ∧
      (∀ (c2 : Config) (v : URL) (join : List String), c2.cluster = some v →
        Resolve parseLocalhost JoinURL c2 join =
          .returned (some (if join.length = 0 then v else JoinURL v join)) c2)) :=
  ⟨⟨rfl, by rfl⟩,
    Resolve_cache_sticky parseLocalhost JoinURL
      ⟨0, "", "", [], "", "http://localhost:4444/api/", "", "", none, none⟩
      ⟨"http", "localhost:4444", "/api/", "", ""⟩ ["clients"] rfl (by rfl)⟩

/-- C9: `Resolve` ends the process exactly when the cache is empty and
`url.Parse` rejects `ClusterURL`; the cache is then still empty. In every other
case, for any segments, it returns a non-nil URL. -/
theorem Resolve_exits_iff (Parse : String → Except String URL)
    (JoinURL : URL → List String → URL) (c : Config) (join : List String) :
    ((Resolve Parse JoinURL c join).isReturned = false ↔
        (c.cluster = none ∧ ∃ e, Parse c.ClusterURL = .error e)) ∧
      ((Resolve Parse JoinURL c join).isReturned = false →
        (Resolve Parse JoinURL c join).state.cluster = none) ∧
      ((Resolve Parse JoinURL c join).isReturned = true →
        ∃ u, (Resolve Parse JoinURL c join).value? = some (some u)) := by
  cases hc : c.cluster with
  | some v =>
    rw [Resolve_cached Parse JoinURL c v join hc]
    simp [Outcome.isReturned, Outcome.value?]
  | none =>
    cases hp : Parse c.ClusterURL with
    | error e =>
      rw [Resolve_failed Parse JoinURL c e join hc hp]
      simp [Outcome.isReturned, Outcome.state, hc]
    | ok u =>
      rw [Resolve_parsed Parse JoinURL c u join hc hp]
      simp [Outcome.isReturned, Outcome.value?]

/-- C7: on a `Config` with an empty client cache whose grant succeeds, `n ≥ 1`
calls of `OAuth2Client` in sequence all return one and the same client, which
is the one the first call returned and cached, and exactly one token request is
sent, by the first call. A `Config` whose client cache is filled returns the
cached client with no request, whatever `ClientID`, `ClientSecret` and
`ClusterURL` hold. -/
theorem OAuth2Client_once (JoinURLStrings : String → List String → String)
    (Token : List ClientCredentials → ClientCredentials → Option String)
    (n : Nat) (c : Config) (w : Net) (hn : 1 ≤ n) (hnil : c.oauth2Client = none)
    (hgrant : Token w.tokenRequests (oauthConfig JoinURLStrings c) = none) :
    ∃ k c1 w1,
      OAuth2Client JoinURLStrings Token c w = .returned (some k) (c1, w1) ∧
      OAuth2ClientTimes JoinURLStrings Token n c w =
        .returned (List.replicate n (some k)) (c1, w1) ∧
      c1.oauth2Client = some k ∧
      w1.tokenRequests = w.tokenRequests ++ [oauthConfig JoinURLStrings c] ∧
      (∀ (c2 : Config) (w2 : Net) (k2 : HttpClient) (id secret raw : String),
        c2.oauth2Client = some k2 →
        OAuth2Client JoinURLStrings Token
            { c2 with ClientID := id, ClientSecret := secret, ClusterURL := raw } w2 =
          .returned (some k2)
            ({ c2 with ClientID := id, ClientSecret := secret, ClusterURL := raw }, w2)) := by
  obtain ⟨m, rfl⟩ : ∃ m, n = m + 1 := ⟨n - 1, by omega⟩
  have hfirst := OAuth2Client_first JoinURLStrings Token c w hnil hgrant
  refine ⟨_, _, _, hfirst, ?_, rfl, rfl, ?_⟩
  · simp only [OAuth2ClientTimes, hfirst, List.replicate_succ]
    rw [OAuth2ClientTimes_cached JoinURLStrings Token m _ _ _ rfl]
  · intro c2 w2 k2 id secret raw h2
    exact OAuth2Client_cached JoinURLStrings Token _ w2 k2 h2

/-- Instance of C7: three calls against an endpoint that grants every request. -/
theorem OAuth2Client_once_witness :
    (1 ≤ 3 ∧
      (⟨0, "", "", [], "", "http://localhost:4444", "app", "pw", none, none⟩ : Config).oauth2Client
        = none ∧
      grantAll (⟨[], 0⟩ : Net).tokenRequests
        (oauthConfig concatURLStrings
          ⟨0, "", "", [], "", "http://localhost:4444", "app", "pw", none, none⟩) = none) ∧
    ∃ k c1 w1,
      OAuth2Client concatURLStrings grantAll
          ⟨0, "", "", [], "", "http://localhost:4444", "app", "pw", none, none⟩ ⟨[], 0⟩ =
        .returned (some k) (c1, w1) ∧
      OAuth2ClientTimes concatURLStrings grantAll 3
          ⟨0, "", "", [], "", "http://localhost:4444", "app", "pw", none, none⟩ ⟨[], 0⟩ =
        .returned (List.replicate 3 (some k)) (c1, w1) ∧
      c1.oauth2Client = some k ∧
      w1.tokenRequests = (⟨[], 0⟩ : Net).tokenRequests ++
        [oauthConfig concatURLStrings
          ⟨0, "", "", [], "", "http://localhost:4444", "app", "pw", none, none⟩] ∧
      (∀ (c2 : Config) (w2 : Net) (k2 : HttpClient) (id secret raw : String),
        c2.oauth2Client = some k2 →
        OAuth2Client concatURLStrings grantAll
            { c2 with ClientID := id, ClientSecret := secret, ClusterURL := raw } w2 =
          .returned (some k2)
            ({ c2 with ClientID := id, ClientSecret := secret, ClusterURL := raw }, w2)) :=
  ⟨⟨by decide, rfl, rfl⟩,
    OAuth2Client_once concatURLStrings grantAll 3
      ⟨0, "", "", [], "", "http://localhost:4444", "app", "pw", none, none⟩ ⟨[], 0⟩
      (by decide) rfl rfl⟩

/-- C6: let the base URL `u` be the cached URL of a `Config`, or what
`ClusterURL` parses to when the cache is empty; write its path as `b` followed
by `k` slashes, `b` not ending with a slash, and every segment as leading
slashes, a core that neither starts nor ends with a slash, and trailing
slashes. Then `Resolve` returns, with zero segments, `u` itself and otherwise
`u` with the path `b` followed, for every segment with a non-empty core in
order, by one slash and the core: exactly one slash stands between neighbours,
however many slashes the base path ends with and the segments start or end
with. The cache holds `u` afterwards. Two adjacent slashes occur in that path
only if `b` or a core holds them inside. Every base path and every sequence of
segments can be written in this way. -/
theorem Resolve_path_joined (Parse : String → Except String URL) (c : Config) (u : URL)
    (b : List Char) (k : Nat) (segments : List Segment)
    (hbase : c.cluster = some u ∨ (c.cluster = none ∧ Parse c.ClusterURL = .ok u))
    (hb : u.Path.data = b ++ List.replicate k '/') (hbl : b.getLast? ≠ some '/')
    (hs : ∀ s ∈ segments, s.Clean) :
    Resolve Parse JoinURL c (segments.map Segment.text) =
        .returned
          (some (if segments.length = 0 then u
            else { u with Path := String.mk (slashJoined b segments) }))
          { c with cluster := some u } ∧
      (hasDoubleSlash b = false → (∀ s ∈ segments, hasDoubleSlash s.core = false) →
        hasDoubleSlash (slashJoined b segments) = false) ∧
      (∀ (p : String) (join : List String), ∃ (b0 : List Char) (k0 : Nat) (segs : List Segment),
        p.data = b0 ++ List.replicate k0 '/' ∧ b0.getLast? ≠ some '/' ∧
        (∀ s ∈ segs, s.Clean) ∧ segs.map Segment.text = join) := by
  refine ⟨?_, slashJoined_noDoubleSlash b segments hbl hs, exists_slash_decomposition⟩
  have hres : resolved JoinURL u (segments.map Segment.text) =
      (if segments.length = 0 then u
        else { u with Path := String.mk (slashJoined b segments) }) := by
    unfold resolved
    rw [List.length_map]
    split
    · rfl
    · unfold JoinURL
      rw [joinPath_text u.Path b k segments hb hbl hs]
  rw [← hres]
  rcases hbase with hc | ⟨hnil, hparse⟩
  · have hcc : { c with cluster := some u } = c := by
      cases c
      simp_all
    rw [hcc]
    exact Resolve_cached Parse JoinURL c u _ hc
  · exact Resolve_parsed Parse JoinURL c u _ hnil hparse

/-- Instance of C6: the base path `/api/` joined with the segments `/clients/`
and `7`, on the call that fills the cache; the path is `/api/clients/7`. -/
theorem Resolve_path_joined_witness :
    (((⟨0, "", "", [], "", "http://localhost:4444/api/", "", "", none, none⟩ : Config).cluster =
          some ⟨"http", "localhost:4444", "/api/", "", ""⟩ ∨
        ((⟨0, "", "", [], "", "http://localhost:4444/api/", "", "", none, none⟩ : Config).cluster =
            none ∧
          parseLocalhost
            (⟨0, "", "", [], "", "http://localhost:4444/api/", "", "", none, none⟩ :
              Config).ClusterURL = .ok ⟨"http", "localhost:4444", "/api/", "", ""⟩)) ∧
      (⟨"http", "localhost:4444", "/api/", "", ""⟩ : URL).Path.data =
        ['/', 'a', 'p', 'i'] ++ List.replicate 1 '/' ∧
      (['/', 'a', 'p', 'i'] : List Char).getLast? ≠ some '/' ∧
      (∀ s ∈ ([⟨1, ['c', 'l', 'i', 'e', 'n', 't', 's'], 1⟩, ⟨0, ['7'], 0⟩] : List Segment),
        s.Clean)) ∧
    (Resolve parseLocalhost JoinURL
        ⟨0, "", "", [], "", "http://localhost:4444/api/", "", "", none, none⟩
        ["/clients/", "7"] =
        .returned (some ⟨"http", "localhost:4444", "/api/clients/7", "", ""⟩)
          ⟨0, "", "", [], "", "http://localhost:4444/api/", "", "",
            some ⟨"http", "localhost:4444", "/api/", "", ""⟩, none⟩ ∧
      (hasDoubleSlash ['/', 'a', 'p', 'i'] = false →
        (∀ s ∈ ([⟨1, ['c', 'l', 'i', 'e', 'n', 't', 's'], 1⟩, ⟨0, ['7'], 0⟩] : List Segment),
          hasDoubleSlash s.core = false) →
        hasDoubleSlash
          (slashJoined ['/', 'a', 'p', 'i']
            [⟨1, ['c', 'l', 'i', 'e', 'n', 't', 's'], 1⟩, ⟨0, ['7'], 0⟩]) = false) ∧
      (∀ (p : String) (join : List String), ∃ (b0 : List Char) (k0 : Nat) (segs : List Segment),
        p.data = b0 ++ List.replicate k0 '/' ∧ b0.getLast? ≠ some '/' ∧
        (∀ s ∈ segs, s.Clean) ∧ segs.map Segment.text = join)) :=
  ⟨⟨Or.inr ⟨rfl, by rfl⟩, by decide, by decide, by
      intro s hm
      simp only [List.mem_cons, List.mem_singleton, List.not_mem_nil, or_false] at hm
      rcases hm with rfl | rfl <;> exact ⟨by decide, by decide⟩⟩,
    Resolve_path_joined parseLocalhost
      ⟨0, "", "", [], "", "http://localhost:4444/api/", "", "", none, none⟩
      ⟨"http", "localhost:4444", "/api/", "", ""⟩ ['/', 'a', 'p', 'i'] 1
      [⟨1, ['c', 'l', 'i', 'e', 'n', 't', 's'], 1⟩, ⟨0, ['7'], 0⟩]
      (Or.inr ⟨rfl, by rfl⟩) (by decide) (by decide) (by
        intro s hm
        simp only [List.mem_cons, List.mem_singleton, List.not_mem_nil, or_false] at hm
        rcases hm with rfl | rfl <;> exact ⟨by decide, by decide⟩)⟩

/-- Instance of C6 on a filled cache: the cached base path `/api//` joined with
the segments `//clients`, `/` and `7/`; the path is `/api/clients/7`. -/
theorem Resolve_path_joined_cached :
    Resolve parseLocalhost JoinURL
        ⟨0, "", "", [], "", "unused", "", "",
          some ⟨"http", "localhost:4444", "/api//", "", ""⟩, none⟩
        ["//clients", "/", "7/"] =
      .returned (some ⟨"http", "localhost:4444", "/api/clients/7", "", ""⟩)
        ⟨0, "", "", [], "", "unused", "", "",
          some ⟨"http", "localhost:4444", "/api//", "", ""⟩, none⟩ := by
  decide

/-- C8: for every `Config`, the document `Save` serializes and hands to
`ioutil.WriteFile` has exactly the keys `cluster_url`, `client_id` and
`client_secret`, with the values of `ClusterURL`, `ClientID` and
`ClientSecret`; a second `Config` that agrees with the first on these three
fields serializes to the same document and `Save` behaves the same on it,
whatever its other fields and caches hold. -/
theorem Save_document (fp : Filepath) (WriteFile : FileWrite → Option String) (h : Host)
    (c c2 : Config) (hu : c2.ClusterURL = c.ClusterURL) (hi : c2.ClientID = c.ClientID)
    (hs : c2.ClientSecret = c.ClientSecret) :
    yamlMarshal c =
        [("cluster_url", .str c.ClusterURL), ("client_id", .str c.ClientID),
          ("client_secret", .str c.ClientSecret)] ∧
      (∀ path stderr, getConfigPath fp h = .returned path stderr →
        (Save fp WriteFile h c).state.2 =
          some ⟨path, [("cluster_url", .str c.ClusterURL), ("client_id", .str c.ClientID),
            ("client_secret", .str c.ClientSecret)], 0o700⟩) ∧
      yamlMarshal c2 = yamlMarshal c ∧
      Save fp WriteFile h c2 = Save fp WriteFile h c := by
  have hm : ∀ d : Config, yamlMarshal d =
      [("cluster_url", .str d.ClusterURL), ("client_id", .str d.ClientID),
        ("client_secret", .str d.ClientSecret)] := fun d => rfl
  have h2 : yamlMarshal c2 = yamlMarshal c := by rw [hm c2, hm c, hu, hi, hs]
  refine ⟨hm c, ?_, h2, ?_⟩
  · intro path stderr hp
    unfold Save
    rw [hp]
    simp only [hm c]
    split <;> rfl
  · unfold Save
    rw [h2]

/-- Instance of C8: two `Config`s that share the three persisted fields and
differ in every other field and in both caches. -/
theorem Save_document_witness :
    ((⟨0, "", "", [], "", "http://localhost:4444", "app", "pw",
          some ⟨"http", "localhost:4444", "", "", ""⟩,
          some ⟨⟨"app", "pw", "http://localhost:4444/oauth2/token", ["core", "hydra"]⟩, 0⟩⟩ :
        Config).ClusterURL =
        (⟨4444, "0.0.0.0", "hydra", [1, 2, 3, 4, 5, 6, 7, 8], "http://consent",
          "http://localhost:4444", "app", "pw", none, none⟩ : Config).ClusterURL ∧
      (⟨0, "", "", [], "", "http://localhost:4444", "app", "pw",
          some ⟨"http", "localhost:4444", "", "", ""⟩,
          some ⟨⟨"app", "pw", "http://localhost:4444/oauth2/token", ["core", "hydra"]⟩, 0⟩⟩ :
        Config).ClientID =
        (⟨4444, "0.0.0.0", "hydra", [1, 2, 3, 4, 5, 6, 7, 8], "http://consent",
          "http://localhost:4444", "app", "pw", none, none⟩ : Config).ClientID ∧
      (⟨0, "", "", [], "", "http://localhost:4444", "app", "pw",
          some ⟨"http", "localhost:4444", "", "", ""⟩,
          some ⟨⟨"app", "pw", "http://localhost:4444/oauth2/token", ["core", "hydra"]⟩, 0⟩⟩ :
        Config).ClientSecret =
        (⟨4444, "0.0.0.0", "hydra", [1, 2, 3, 4, 5, 6, 7, 8], "http://consent",
          "http://localhost:4444", "app", "pw", none, none⟩ : Config).ClientSecret) ∧
    (yamlMarshal ⟨4444, "0.0.0.0", "hydra", [1, 2, 3, 4, 5, 6, 7, 8], "http://consent",
          "http://localhost:4444", "app", "pw", none, none⟩ =
        [("cluster_url", .str "http://localhost:4444"), ("client_id", .str "app"),
          ("client_secret", .str "pw")] ∧
      (∀ path stderr, getConfigPath slashFilepath ⟨"linux", [("HOME", "/home/me")]⟩ =
          .returned path stderr →
        (Save slashFilepath writeAlways ⟨"linux", [("HOME", "/home/me")]⟩
          ⟨4444, "0.0.0.0", "hydra", [1, 2, 3, 4, 5, 6, 7, 8], "http://consent",
            "http://localhost:4444", "app", "pw", none, none⟩).state.2 =
          some ⟨path, [("cluster_url", .str "http://localhost:4444"), ("client_id", .str "app"),
            ("client_secret", .str "pw")], 0o700⟩) ∧
      yamlMarshal ⟨0, "", "", [], "", "http://localhost:4444", "app", "pw",
          some ⟨"http", "localhost:4444", "", "", ""⟩,
          some ⟨⟨"app", "pw", "http://localhost:4444/oauth2/token", ["core", "hydra"]⟩, 0⟩⟩ =
        yamlMarshal ⟨4444, "0.0.0.0", "hydra", [1, 2, 3, 4, 5, 6, 7, 8], "http://consent",
          "http://localhost:4444", "app", "pw", none, none⟩ ∧
      Save slashFilepath writeAlways ⟨"linux", [("HOME", "/home/me")]⟩
          ⟨0, "", "", [], "", "http://localhost:4444", "app", "pw",
            some ⟨"http", "localhost:4444", "", "", ""⟩,
            some ⟨⟨"app", "pw", "http://localhost:4444/oauth2/token", ["core", "hydra"]⟩, 0⟩⟩ =
        Save slashFilepath writeAlways ⟨"linux", [("HOME", "/home/me")]⟩
          ⟨4444, "0.0.0.0", "hydra", [1, 2, 3, 4, 5, 6, 7, 8], "http://consent",
            "http://localhost:4444", "app", "pw", none, none⟩) :=
  ⟨⟨rfl, rfl, rfl⟩,
    Save_document slashFilepath writeAlways ⟨"linux", [("HOME", "/home/me")]⟩
      ⟨4444, "0.0.0.0", "hydra", [1, 2, 3, 4, 5, 6, 7, 8], "http://consent",
        "http://localhost:4444", "app", "pw", none, none⟩
      ⟨0, "", "", [], "", "http://localhost:4444", "app", "pw",
        some ⟨"http", "localhost:4444", "", "", ""⟩,
        some ⟨⟨"app", "pw", "http://localhost:4444/oauth2/token", ["core", "hydra"]⟩, 0⟩⟩
      rfl rfl rfl⟩

end config
